import Mathlib

/-!
Formal model of the Kademlia routing-table core found in src/src/kademlia.rs.

The source represents a 160-bit node identifier as an array of five u32
words.  Its arithmetic operations (plus_one, midpoint) treat the word at
index 0 as the least significant one, while its derived comparison order
compares index 0 first.  Both conventions are modelled faithfully below:
machine words are Nat together with the wellformedness bound 2^32, and
every u32 truncation of the source is an explicit percent 2^32.

Modelling conventions:
  - the Rust range tuple (range.0, range.1) is the Lean pair
    (range.1, range.2), low bound first, high bound second;
  - the HashMap of a bucket is an association list; iterating the map is
    folding over the list (the map order is abstracted away exactly as
    Rust leaves the HashMap iteration order unspecified);
  - a Rust panic (out-of-bounds Vec index) is Option.none, and the
    unbounded recursion of RoutingTable::add carries explicit fuel, so
    none also stands for a non-terminating recursion;
  - fixed-bound for-loops of the source are unrolled.
-/

namespace Kademlia

/-- A 160-bit node identifier: the five u32 words of the Rust data
array, d0 being data[0].  The arithmetic of the source treats d0 as the
least significant word. -/
structure NodeId where
  d0 : Nat
  d1 : Nat
  d2 : Nat
  d3 : Nat
  d4 : Nat
deriving DecidableEq

/-- Each word fits in a u32, as the Rust type system guarantees. -/
def NodeId.Wf (n : NodeId) : Prop :=
  n.d0 < 2 ^ 32 ∧ n.d1 < 2 ^ 32 ∧ n.d2 < 2 ^ 32 ∧ n.d3 < 2 ^ 32 ∧ n.d4 < 2 ^ 32

instance (n : NodeId) : Decidable (NodeId.Wf n) := by
  unfold NodeId.Wf
  infer_instance

/-- The 160-bit unsigned value denoted by a NodeId under the
little-endian word convention of the source's arithmetic (data[0] least
significant). -/
def NodeId.toVal (n : NodeId) : Nat :=
  n.d0 + 2 ^ 32 * n.d1 + 2 ^ 64 * n.d2 + 2 ^ 96 * n.d3 + 2 ^ 128 * n.d4

/-- The strict order of the derived PartialOrd instance of NodeId: the
data arrays are compared lexicographically, index 0 (the arithmetically
least significant word) first. -/
def NodeId.lt (a b : NodeId) : Bool :=
  if a.d0 ≠ b.d0 then decide (a.d0 < b.d0)
  else if a.d1 ≠ b.d1 then decide (a.d1 < b.d1)
  else if a.d2 ≠ b.d2 then decide (a.d2 < b.d2)
  else if a.d3 ≠ b.d3 then decide (a.d3 < b.d3)
  else if a.d4 ≠ b.d4 then decide (a.d4 < b.d4)
  else false

/-- The non-strict order of the derived PartialOrd instance. -/
def NodeId.le (a b : NodeId) : Bool :=
  NodeId.lt a b || decide (a = b)

/-- Greater-or-equal of the derived PartialOrd instance. -/
def NodeId.ge (a b : NodeId) : Bool :=
  NodeId.lt b a || decide (a = b)

/-- The halving loop of NodeId::midpoint: shift every word right by one
and carry the dropped low bit of each more significant word into the
high bit of the previous word. -/
def NodeId.half (n : NodeId) : NodeId :=
  let a0 := n.d0 >>> 1
  let a0 := if n.d1 &&& 1 = 1 then a0 ||| 0x80000000 else a0
  let a1 := n.d1 >>> 1
  let a1 := if n.d2 &&& 1 = 1 then a1 ||| 0x80000000 else a1
  let a2 := n.d2 >>> 1
  let a2 := if n.d3 &&& 1 = 1 then a2 ||| 0x80000000 else a2
  let a3 := n.d3 >>> 1
  let a3 := if n.d4 &&& 1 = 1 then a3 ||| 0x80000000 else a3
  let a4 := n.d4 >>> 1
  ⟨a0, a1, a2, a3, a4⟩

/-- NodeId::midpoint: halve both operands word-wise, then add them with
a carry chain seeded from the two dropped low bits; each word of the sum
is truncated to u32 exactly as the val-as-u32 cast of the source does. -/
def NodeId.midpoint (a b : NodeId) : NodeId :=
  let sd := a.half
  let od := b.half
  let c0 := a.d0 &&& b.d0 &&& 1
  let v0 := sd.d0 + od.d0 + c0
  let c1 : Nat := if v0 > 0xffffffff then 1 else 0
  let v1 := sd.d1 + od.d1 + c1
  let c2 : Nat := if v1 > 0xffffffff then 1 else 0
  let v2 := sd.d2 + od.d2 + c2
  let c3 : Nat := if v2 > 0xffffffff then 1 else 0
  let v3 := sd.d3 + od.d3 + c3
  let c4 : Nat := if v3 > 0xffffffff then 1 else 0
  let v4 := sd.d4 + od.d4 + c4
  ⟨v0 % 2 ^ 32, v1 % 2 ^ 32, v2 % 2 ^ 32, v3 % 2 ^ 32, v4 % 2 ^ 32⟩

/-- NodeId::plus_one: increment with carry propagation from word 0
upward; a word equal to u32::MAX becomes 0 and the carry moves on,
otherwise the word is incremented and the loop breaks. -/
def NodeId.plus_one (n : NodeId) : NodeId :=
  if n.d0 = 0xffffffff then
    if n.d1 = 0xffffffff then
      if n.d2 = 0xffffffff then
        if n.d3 = 0xffffffff then
          if n.d4 = 0xffffffff then
            ⟨0, 0, 0, 0, 0⟩
          else ⟨0, 0, 0, 0, n.d4 + 1⟩
        else ⟨0, 0, 0, n.d3 + 1, n.d4⟩
      else ⟨0, 0, n.d2 + 1, n.d3, n.d4⟩
    else ⟨0, n.d1 + 1, n.d2, n.d3, n.d4⟩
  else ⟨n.d0 + 1, n.d1, n.d2, n.d3, n.d4⟩

/-- Number of set bits among the w lowest binary digits of x; at width
32 this is u32::count_ones. -/
def bitCount : Nat → Nat → Nat
  | 0, _ => 0
  | w + 1, x => x % 2 + bitCount w (x / 2)

/-- NodeId::distance: the sum over the five words of the popcount of
the XOR of corresponding words, i.e. the count of differing bits
(Hamming weight), not the numeric value of the XOR. -/
def NodeId.distance (a b : NodeId) : Nat :=
  bitCount 32 (a.d0 ^^^ b.d0) +
  bitCount 32 (a.d1 ^^^ b.d1) +
  bitCount 32 (a.d2 ^^^ b.d2) +
  bitCount 32 (a.d3 ^^^ b.d3) +
  bitCount 32 (a.d4 ^^^ b.d4)

/-- The all-zero identifier. -/
def zeroId : NodeId := ⟨0, 0, 0, 0, 0⟩

/-- The all-ones identifier, the largest 160-bit value. -/
def maxId : NodeId := ⟨0xffffffff, 0xffffffff, 0xffffffff, 0xffffffff, 0xffffffff⟩

/-- A peer contact record.  The IPv4 address is modelled as a plain
number; the routing logic never inspects it. -/
structure Node where
  ip_address : Nat
  port : Nat
  id : NodeId
deriving DecidableEq

/-- A k-bucket: capacity, inclusive id range (low, high) and the
contact map, an association list standing for the HashMap of the
source. -/
structure KBucket where
  k_size : Nat
  range : NodeId × NodeId
  nodes : List (NodeId × Node)
deriving DecidableEq

/-- HashMap::insert: replace the entry holding the key, or append a new
entry. -/
def mapInsert (m : List (NodeId × Node)) (k : NodeId) (v : Node) :
    List (NodeId × Node) :=
  if m.any (fun p => p.1 == k) then
    m.map (fun p => if p.1 == k then (k, v) else p)
  else m ++ [(k, v)]

/-- KBucket::add of the source, verbatim: it ignores the node and
unconditionally reports success, leaving the bucket untouched. -/
def KBucket.add (b : KBucket) (_node : Node) : KBucket × Bool :=
  (b, true)

/-- KBucket::split: the low child keeps the range up to the midpoint,
the high child starts just above it, and every stored contact goes to
the low child exactly when its id is at most the midpoint under the
derived (lexicographic) order. -/
def KBucket.split (b : KBucket) : KBucket × KBucket :=
  let m := b.range.1.midpoint b.range.2
  let bucket1 : KBucket := ⟨b.k_size, (b.range.1, m), []⟩
  let bucket2 : KBucket := ⟨b.k_size, (m.plus_one, b.range.2), []⟩
  b.nodes.foldl
    (fun pair kv =>
      if NodeId.le kv.1 pair.1.range.2 then
        (⟨pair.1.k_size, pair.1.range, mapInsert pair.1.nodes kv.1 kv.2⟩, pair.2)
      else
        (pair.1, ⟨pair.2.k_size, pair.2.range, mapInsert pair.2.nodes kv.1 kv.2⟩))
    (bucket1, bucket2)

/-- KBucket::has_in_range, using the derived comparison order exactly
as the source does. -/
def KBucket.has_in_range (b : KBucket) (node : Node) : Bool :=
  NodeId.ge node.id b.range.1 && NodeId.le node.id b.range.2

/-- KBucket::depth of the source, verbatim: constantly zero. -/
def KBucket.depth (_ : KBucket) : Nat := 0

/-- The routing table: the local node and the bucket list. -/
structure RoutingTable where
  node : Node
  buckets : List KBucket
deriving DecidableEq

/-- The search loop of RoutingTable::get_bucket_for: the index of the
first bucket whose high bound is strictly greater (in the derived
order) than the id, if any. -/
def getBucketAux (buckets : List KBucket) (node : Node) (i : Nat) : Option Nat :=
  match buckets with
  | [] => none
  | b :: rest =>
      if NodeId.lt node.id b.range.2 then some i
      else getBucketAux rest node (i + 1)

/-- RoutingTable::get_bucket_for: the search loop above, falling back
to index 0 when no bucket matches. -/
def RoutingTable.get_bucket_for (rt : RoutingTable) (node : Node) : Nat :=
  (getBucketAux rt.buckets node 0).getD 0

/-- RoutingTable::split_bucket: replace the bucket at the index by its
low child and insert the high child right after it; none is the panic
on an out-of-bounds index. -/
def RoutingTable.split_bucket (rt : RoutingTable) (index : Nat) :
    Option RoutingTable :=
  match rt.buckets[index]? with
  | none => none
  | some b =>
      let p := b.split
      some ⟨rt.node, (rt.buckets.set index p.1).insertIdx (index + 1) p.2⟩

/-- RoutingTable::add with explicit fuel standing for the call stack of
the Rust recursion: locate the covering bucket, try the bucket-level
add, and on failure split and retry.  none models a panic (index out of
bounds on an empty table) or exhausted fuel. -/
def RoutingTable.addFuel : Nat → RoutingTable → Node → Option RoutingTable
  | 0, _, _ => none
  | fuel + 1, rt, node =>
      let bucket_index := rt.get_bucket_for node
      match rt.buckets[bucket_index]? with
      | none => none
      | some bucket =>
          let r := bucket.add node
          let rt1 : RoutingTable := ⟨rt.node, rt.buckets.set bucket_index r.1⟩
          if r.2 then some rt1
          else
            let should_split := r.1.has_in_range node || decide (r.1.depth % 5 ≠ 0)
            if should_split then
              match rt1.split_bucket bucket_index with
              | none => none
              | some rt2 => RoutingTable.addFuel fuel rt2 node
            else some rt1

/-- RoutingTable::add; 161 units of fuel cover the 160 splits the id
space admits, one more than any run of the source can consume. -/
def RoutingTable.add (rt : RoutingTable) (node : Node) : Option RoutingTable :=
  RoutingTable.addFuel 161 rt node

/-- The chain part of the tiling invariant: every bucket's high bound
is followed by the next bucket's low bound via plus_one, the low bounds
are numerically increasing, and the last high bound is the maximum
id. -/
def chainOk : List KBucket → Bool
  | [] => true
  | [b] => decide (b.range.2 = maxId)
  | b1 :: b2 :: rest =>
      decide (b1.range.2.plus_one = b2.range.1) &&
      decide (b1.range.1.toVal < b2.range.1.toVal) &&
      chainOk (b2 :: rest)

/-- The routing-table tiling invariant: a nonempty bucket list, sorted
by range, starting at zero, chained by successor, and ending at the
maximum id. -/
def tiling (buckets : List KBucket) : Bool :=
  match buckets with
  | [] => false
  | b :: _ => decide (b.range.1 = zeroId) && chainOk buckets

/-- Whether RoutingTable::add returns normally and leaves a table whose
buckets satisfy the tiling invariant. -/
def addKeepsTiling (rt : RoutingTable) (node : Node) : Bool :=
  match RoutingTable.add rt node with
  | some rt2 => tiling rt2.buckets
  | none => false

/-! ### Concrete fixtures used by the claim evaluations and witnesses -/

/-- A bucket of capacity one already holding one contact: a full bucket. -/
def fullBucketC1 : KBucket :=
  ⟨1, (zeroId, maxId), [(⟨1, 0, 0, 0, 0⟩, ⟨0, 0, ⟨1, 0, 0, 0, 0⟩⟩)]⟩

/-- A contact whose id is absent from fullBucketC1. -/
def newNodeC1 : Node := ⟨0, 0, ⟨2, 0, 0, 0, 0⟩⟩

/-- Low bucket of a two-bucket tiling of the id space. -/
def bucketLowC5 : KBucket := ⟨20, (zeroId, ⟨5, 0, 0, 0, 0⟩), []⟩

/-- High bucket of a two-bucket tiling of the id space. -/
def bucketHighC5 : KBucket := ⟨20, (⟨6, 0, 0, 0, 0⟩, maxId), []⟩

/-- A routing table whose two buckets tile the id space exactly. -/
def tableC5 : RoutingTable := ⟨⟨0, 0, zeroId⟩, [bucketLowC5, bucketHighC5]⟩

/-- A node whose id equals the high bound of bucketLowC5. -/
def probeC5 : Node := ⟨0, 0, ⟨5, 0, 0, 0, 0⟩⟩

/-- A bucket over the range 0 to 2^32 holding one contact whose id is
the high bound, 2^32. -/
def parentC6 : KBucket :=
  ⟨2, (zeroId, ⟨0, 1, 0, 0, 0⟩), [(⟨0, 1, 0, 0, 0⟩, ⟨0, 0, ⟨0, 1, 0, 0, 0⟩⟩)]⟩

/-- A one-bucket routing table covering the whole id space. -/
def tableW : RoutingTable := ⟨⟨0, 0, zeroId⟩, [⟨20, (zeroId, maxId), []⟩]⟩

/-- An arbitrary concrete node. -/
def nodeW : Node := ⟨0, 0, ⟨7, 0, 0, 0, 0⟩⟩

/-! ### Helper lemmas about the word-level arithmetic -/

theorem lor_high {x : Nat} (h : x < 2 ^ 31) : x ||| 0x80000000 = x + 0x80000000 := by
  have h2 : (0x80000000 : Nat) = 2 ^ 31 * 1 := by norm_num
  rw [Nat.lor_comm, h2, ← Nat.mul_add_lt_is_or h 1]
  omega

theorem and_and_one (a b : Nat) :
    a &&& b &&& 1 = if a % 2 = 1 ∧ b % 2 = 1 then 1 else 0 := by
  rw [Nat.and_one_is_mod]
  have h := Nat.testBit_and a b 0
  simp only [Nat.testBit_zero, Bool.and_eq_decide, decide_eq_decide] at h
  split_ifs with hc
  · omega
  · omega

theorem NodeId.half_toVal {n : NodeId} (h : n.Wf) :
    n.half.toVal = n.toVal / 2 ∧ n.half.Wf ∧ n.half.d4 < 2 ^ 31 := by
  obtain ⟨h0, h1, h2, h3, h4⟩ := h
  unfold NodeId.half
  simp only [Nat.shiftRight_one, Nat.and_one_is_mod]
  split_ifs <;>
    (simp only [NodeId.toVal, NodeId.Wf]
     repeat rw [lor_high (by omega)]) <;>
    omega

theorem NodeId.midpoint_chain {a b : NodeId} (ha : a.Wf) (hb : b.Wf) :
    (a.midpoint b).toVal = a.half.toVal + b.half.toVal + (a.d0 &&& b.d0 &&& 1) ∧
      (a.midpoint b).Wf := by
  obtain ⟨hAv, ⟨hA0, hA1, hA2, hA3, hA4w⟩, hA4⟩ := NodeId.half_toVal ha
  obtain ⟨hBv, ⟨hB0, hB1, hB2, hB3, hB4w⟩, hB4⟩ := NodeId.half_toVal hb
  have hc : a.d0 &&& b.d0 &&& 1 ≤ 1 := by rw [and_and_one]; split_ifs <;> omega
  clear hAv hBv ha hb
  simp only [NodeId.midpoint, NodeId.toVal, NodeId.Wf]
  generalize a.d0 &&& b.d0 &&& 1 = c at *
  generalize hP : a.half = p at *
  generalize hQ : b.half = q at *
  obtain ⟨p0, p1, p2, p3, p4⟩ := p
  obtain ⟨q0, q1, q2, q3, q4⟩ := q
  simp only [NodeId.toVal, NodeId.Wf] at *
  have e0 : (if p0 + q0 + c > 0xffffffff then (1 : Nat) else 0) = (p0 + q0 + c) / 2 ^ 32 := by
    split_ifs <;> omega
  rw [e0]
  have e1 : (if p1 + q1 + (p0 + q0 + c) / 2 ^ 32 > 0xffffffff then (1 : Nat) else 0)
      = (p1 + q1 + (p0 + q0 + c) / 2 ^ 32) / 2 ^ 32 := by
    have : (p0 + q0 + c) / 2 ^ 32 ≤ 1 := by omega
    split_ifs <;> omega
  rw [e1]
  have e2 : (if p2 + q2 + (p1 + q1 + (p0 + q0 + c) / 2 ^ 32) / 2 ^ 32 > 0xffffffff then (1 : Nat) else 0)
      = (p2 + q2 + (p1 + q1 + (p0 + q0 + c) / 2 ^ 32) / 2 ^ 32) / 2 ^ 32 := by
    have : (p1 + q1 + (p0 + q0 + c) / 2 ^ 32) / 2 ^ 32 ≤ 1 := by omega
    split_ifs <;> omega
  rw [e2]
  have e3 : (if p3 + q3 + (p2 + q2 + (p1 + q1 + (p0 + q0 + c) / 2 ^ 32) / 2 ^ 32) / 2 ^ 32 > 0xffffffff then (1 : Nat) else 0)
      = (p3 + q3 + (p2 + q2 + (p1 + q1 + (p0 + q0 + c) / 2 ^ 32) / 2 ^ 32) / 2 ^ 32) / 2 ^ 32 := by
    have : (p2 + q2 + (p1 + q1 + (p0 + q0 + c) / 2 ^ 32) / 2 ^ 32) / 2 ^ 32 ≤ 1 := by omega
    split_ifs <;> omega
  rw [e3]
  omega

theorem NodeId.toVal_lt {n : NodeId} (h : n.Wf) : n.toVal < 2 ^ 160 := by
  obtain ⟨h0, h1, h2, h3, h4⟩ := h
  unfold NodeId.toVal
  omega

theorem NodeId.toVal_inj {m n : NodeId} (hm : m.Wf) (hn : n.Wf)
    (h : m.toVal = n.toVal) : m = n := by
  obtain ⟨m0, m1, m2, m3, m4⟩ := m
  obtain ⟨n0, n1, n2, n3, n4⟩ := n
  simp only [NodeId.Wf] at hm hn
  simp only [NodeId.toVal] at h
  simp only [NodeId.mk.injEq]
  omega

theorem NodeId.midpoint_toVal {a b : NodeId} (ha : a.Wf) (hb : b.Wf) :
    (a.midpoint b).toVal = (a.toVal + b.toVal) / 2 ∧ (a.midpoint b).Wf := by
  obtain ⟨hch, hwf⟩ := NodeId.midpoint_chain ha hb
  obtain ⟨hAv, -, -⟩ := NodeId.half_toVal ha
  obtain ⟨hBv, -, -⟩ := NodeId.half_toVal hb
  refine ⟨?_, hwf⟩
  rw [hch, hAv, hBv, and_and_one]
  have p1 : a.toVal % 2 = a.d0 % 2 := by unfold NodeId.toVal; omega
  have p2 : b.toVal % 2 = b.d0 % 2 := by unfold NodeId.toVal; omega
  split_ifs <;> omega

theorem NodeId.plus_one_toVal {n : NodeId} (h : n.Wf) :
    n.plus_one.toVal = (n.toVal + 1) % 2 ^ 160 ∧ n.plus_one.Wf := by
  obtain ⟨h0, h1, h2, h3, h4⟩ := h
  unfold NodeId.plus_one
  split_ifs <;> simp only [NodeId.toVal, NodeId.Wf] <;> omega

/-! ### Bit-counting and XOR decomposition lemmas -/

theorem bitCount_split (w v x : Nat) :
    bitCount (w + v) x = bitCount w x + bitCount v (x / 2 ^ w) := by
  induction w generalizing x with
  | zero => simp [bitCount]
  | succ w ih =>
      have e : w + 1 + v = (w + v) + 1 := by omega
      rw [e]
      simp only [bitCount]
      rw [ih (x / 2)]
      have e2 : x / 2 / 2 ^ w = x / 2 ^ (w + 1) := by
        rw [Nat.div_div_eq_div_mul, ← Nat.pow_succ']
      rw [e2]
      omega

theorem bitCount_low (w x y : Nat) :
    bitCount w (x + 2 ^ w * y) = bitCount w x := by
  induction w generalizing x y with
  | zero => simp [bitCount]
  | succ w ih =>
      simp only [bitCount]
      have e : x + 2 ^ (w + 1) * y = x + 2 * (2 ^ w * y) := by ring
      rw [e]
      have m2 : (x + 2 * (2 ^ w * y)) % 2 = x % 2 := by omega
      have d2 : (x + 2 * (2 ^ w * y)) / 2 = x / 2 + 2 ^ w * y := by omega
      rw [m2, d2, ih (x / 2) y]

theorem bitCount_eq_zero {w x : Nat} (hx : x < 2 ^ w) (h : bitCount w x = 0) :
    x = 0 := by
  induction w generalizing x with
  | zero => omega
  | succ w ih =>
      simp only [bitCount] at h
      have hx2 : x / 2 < 2 ^ w := by
        have e : 2 ^ (w + 1) = 2 ^ w * 2 := by ring
        rw [e] at hx
        omega
      have := ih hx2 (by omega)
      omega

theorem xor_split {k x y : Nat} (xr yr : Nat) (hx : x < 2 ^ k) (hy : y < 2 ^ k) :
    (2 ^ k * xr + x) ^^^ (2 ^ k * yr + y) = 2 ^ k * (xr ^^^ yr) + (x ^^^ y) := by
  apply Nat.eq_of_testBit_eq
  intro j
  rw [Nat.testBit_xor, Nat.testBit_mul_pow_two_add _ hx, Nat.testBit_mul_pow_two_add _ hy,
      Nat.testBit_mul_pow_two_add _ (Nat.xor_lt_two_pow hx hy)]
  by_cases hj : j < k
  · simp [hj, Nat.testBit_xor]
  · simp [hj, Nat.testBit_xor]

theorem NodeId.distance_self (a : NodeId) : NodeId.distance a a = 0 := by
  unfold NodeId.distance
  simp only [Nat.xor_self]
  decide

theorem NodeId.distance_comm (a b : NodeId) :
    NodeId.distance a b = NodeId.distance b a := by
  unfold NodeId.distance
  rw [Nat.xor_comm a.d0 b.d0, Nat.xor_comm a.d1 b.d1, Nat.xor_comm a.d2 b.d2,
      Nat.xor_comm a.d3 b.d3, Nat.xor_comm a.d4 b.d4]

theorem NodeId.distance_eq_zero_iff {a b : NodeId} (ha : a.Wf) (hb : b.Wf) :
    NodeId.distance a b = 0 ↔ a = b := by
  constructor
  · intro h
    obtain ⟨a0, a1, a2, a3, a4⟩ := a
    obtain ⟨b0, b1, b2, b3, b4⟩ := b
    simp only [NodeId.Wf] at ha hb
    obtain ⟨ha0, ha1, ha2, ha3, ha4⟩ := ha
    obtain ⟨hb0, hb1, hb2, hb3, hb4⟩ := hb
    simp only [NodeId.distance] at h
    have e0 : a0 ^^^ b0 = 0 := bitCount_eq_zero (Nat.xor_lt_two_pow ha0 hb0) (by omega)
    have e1 : a1 ^^^ b1 = 0 := bitCount_eq_zero (Nat.xor_lt_two_pow ha1 hb1) (by omega)
    have e2 : a2 ^^^ b2 = 0 := bitCount_eq_zero (Nat.xor_lt_two_pow ha2 hb2) (by omega)
    have e3 : a3 ^^^ b3 = 0 := bitCount_eq_zero (Nat.xor_lt_two_pow ha3 hb3) (by omega)
    have e4 : a4 ^^^ b4 = 0 := bitCount_eq_zero (Nat.xor_lt_two_pow ha4 hb4) (by omega)
    simp only [NodeId.mk.injEq]
    exact ⟨Nat.xor_eq_zero.mp e0, Nat.xor_eq_zero.mp e1, Nat.xor_eq_zero.mp e2,
      Nat.xor_eq_zero.mp e3, Nat.xor_eq_zero.mp e4⟩
  · intro h
    rw [h]
    exact NodeId.distance_self b

/-! ### Helper lemmas about the routing table -/

theorem getBucketAux_lt (bs : List KBucket) (node : Node) :
    ∀ i j, getBucketAux bs node i = some j → j < i + bs.length := by
  induction bs with
  | nil => intro i j h; simp [getBucketAux] at h
  | cons b rest ih =>
      intro i j h
      simp only [getBucketAux] at h
      split at h
      · simp only [Option.some.injEq] at h
        simp [← h]
      · have := ih (i + 1) j h
        simp only [List.length_cons]
        omega

theorem get_bucket_for_lt (rt : RoutingTable) (node : Node)
    (h : 0 < rt.buckets.length) :
    rt.get_bucket_for node < rt.buckets.length := by
  unfold RoutingTable.get_bucket_for
  cases hg : getBucketAux rt.buckets node 0 with
  | none => simpa using h
  | some j =>
      have := getBucketAux_lt rt.buckets node 0 j hg
      simpa using this

theorem list_set_self {α : Type} : ∀ (l : List α) (i : Nat) (h : i < l.length),
    l.set i l[i] = l := by
  intro l
  induction l with
  | nil => intro i h; simp at h
  | cons x xs ih =>
      intro i h
      cases i with
      | zero => simp
      | succ i =>
          simp only [List.set, List.getElem_cons_succ, List.cons.injEq, true_and]
          exact ih i (by simpa using h)

theorem add_eq_some (rt : RoutingTable) (node : Node) (h : 0 < rt.buckets.length) :
    RoutingTable.add rt node = some rt := by
  have hidx := get_bucket_for_lt rt node h
  show RoutingTable.addFuel (160 + 1) rt node = some rt
  rw [RoutingTable.addFuel]
  simp only [KBucket.add, List.getElem?_eq_getElem hidx]
  rw [list_set_self]
  simp

/-! ### The claims -/

/-- Claim C1 (code_bug evaluation): KBucket::add at a full bucket with a
fresh contact reports success and stores nothing, where the claimed
try_insert contract requires the Full outcome with no mutation, and on
the success outcome requires the contact to actually be inserted. -/
theorem kbucket_add_ignores_contact_and_reports_success :
    KBucket.add fullBucketC1 newNodeC1 = (fullBucketC1, true) ∧
    fullBucketC1.nodes.length = fullBucketC1.k_size ∧
    decide (newNodeC1.id = ⟨1, 0, 0, 0, 0⟩) = false := by
  decide

/-- Claim C2 (counterexample): the distance of the ids 2 and 0 is 1, the
Hamming weight of their XOR, while the numeric value of their XOR is 2,
so distance does not return the numeric XOR value the claim states. -/
theorem distance_is_not_numeric_xor :
    NodeId.distance ⟨2, 0, 0, 0, 0⟩ zeroId = 1 ∧
    NodeId.toVal ⟨2, 0, 0, 0, 0⟩ ^^^ NodeId.toVal zeroId = 2 ∧
    NodeId.distance ⟨2, 0, 0, 0, 0⟩ zeroId
      < NodeId.toVal ⟨2, 0, 0, 0, 0⟩ ^^^ NodeId.toVal zeroId := by
  decide

/-- Claim C2 (amended): for wellformed ids, NodeId::distance returns the
count of differing bits, i.e. the number of set bits among the 160
binary digits of the XOR of the two 160-bit values, not the numeric
magnitude of that XOR. -/
theorem NodeId.distance_eq_hamming_weight_of_xor {a b : NodeId}
    (ha : a.Wf) (hb : b.Wf) :
    NodeId.distance a b = bitCount 160 (a.toVal ^^^ b.toVal) := by
  obtain ⟨ha0, ha1, ha2, ha3, ha4⟩ := ha
  obtain ⟨hb0, hb1, hb2, hb3, hb4⟩ := hb
  unfold NodeId.distance
  have eA : a.toVal
      = 2 ^ 32 * (2 ^ 32 * (2 ^ 32 * (2 ^ 32 * a.d4 + a.d3) + a.d2) + a.d1) + a.d0 := by
    unfold NodeId.toVal; ring
  have eB : b.toVal
      = 2 ^ 32 * (2 ^ 32 * (2 ^ 32 * (2 ^ 32 * b.d4 + b.d3) + b.d2) + b.d1) + b.d0 := by
    unfold NodeId.toVal; ring
  rw [eA, eB, xor_split _ _ ha0 hb0, xor_split _ _ ha1 hb1, xor_split _ _ ha2 hb2,
      xor_split _ _ ha3 hb3]
  have x0lt := Nat.xor_lt_two_pow ha0 hb0
  have x1lt := Nat.xor_lt_two_pow ha1 hb1
  have x2lt := Nat.xor_lt_two_pow ha2 hb2
  have x3lt := Nat.xor_lt_two_pow ha3 hb3
  generalize a.d0 ^^^ b.d0 = x0 at *
  generalize a.d1 ^^^ b.d1 = x1 at *
  generalize a.d2 ^^^ b.d2 = x2 at *
  generalize a.d3 ^^^ b.d3 = x3 at *
  generalize a.d4 ^^^ b.d4 = x4 at *
  rw [show (160 : Nat) = 32 + 128 from rfl, bitCount_split]
  rw [show 2 ^ 32 * (2 ^ 32 * (2 ^ 32 * (2 ^ 32 * x4 + x3) + x2) + x1) + x0
      = x0 + 2 ^ 32 * (2 ^ 32 * (2 ^ 32 * (2 ^ 32 * x4 + x3) + x2) + x1) from by ring]
  rw [bitCount_low]
  rw [show (x0 + 2 ^ 32 * (2 ^ 32 * (2 ^ 32 * (2 ^ 32 * x4 + x3) + x2) + x1)) / 2 ^ 32
      = 2 ^ 32 * (2 ^ 32 * (2 ^ 32 * x4 + x3) + x2) + x1 from by omega]
  rw [show (128 : Nat) = 32 + 96 from rfl, bitCount_split]
  rw [show 2 ^ 32 * (2 ^ 32 * (2 ^ 32 * x4 + x3) + x2) + x1
      = x1 + 2 ^ 32 * (2 ^ 32 * (2 ^ 32 * x4 + x3) + x2) from by ring]
  rw [bitCount_low]
  rw [show (x1 + 2 ^ 32 * (2 ^ 32 * (2 ^ 32 * x4 + x3) + x2)) / 2 ^ 32
      = 2 ^ 32 * (2 ^ 32 * x4 + x3) + x2 from by omega]
  rw [show (96 : Nat) = 32 + 64 from rfl, bitCount_split]
  rw [show 2 ^ 32 * (2 ^ 32 * x4 + x3) + x2 = x2 + 2 ^ 32 * (2 ^ 32 * x4 + x3) from by ring]
  rw [bitCount_low]
  rw [show (x2 + 2 ^ 32 * (2 ^ 32 * x4 + x3)) / 2 ^ 32 = 2 ^ 32 * x4 + x3 from by omega]
  rw [show (64 : Nat) = 32 + 32 from rfl, bitCount_split]
  rw [show 2 ^ 32 * x4 + x3 = x3 + 2 ^ 32 * x4 from by ring]
  rw [bitCount_low]
  rw [show (x3 + 2 ^ 32 * x4) / 2 ^ 32 = x4 from by omega]
  omega

/-- Claim C2 (witness): the amended statement evaluated at the id pair
of the source's own distance unit test. -/
theorem distance_eq_hamming_weight_of_xor_witness :
    NodeId.Wf ⟨1, 0, 0, 0, 0⟩ ∧ NodeId.Wf ⟨0, 0, 0xffffffff, 0, 1⟩ ∧
    NodeId.distance ⟨1, 0, 0, 0, 0⟩ ⟨0, 0, 0xffffffff, 0, 1⟩
      = bitCount 160 (NodeId.toVal ⟨1, 0, 0, 0, 0⟩ ^^^ NodeId.toVal ⟨0, 0, 0xffffffff, 0, 1⟩) :=
  ⟨by decide, by decide, NodeId.distance_eq_hamming_weight_of_xor (by decide) (by decide)⟩

/-- Claim C3 (code_bug evaluation): the id holding 1 in word 0 denotes
the value 1, the id holding 1 in word 1 denotes 2^32, yet the derived
order calls the former the larger one, because it compares word 0 first
while the arithmetic treats word 0 as least significant. -/
theorem nodeid_order_disagrees_with_numeric_order :
    NodeId.lt ⟨1, 0, 0, 0, 0⟩ ⟨0, 1, 0, 0, 0⟩ = false ∧
    NodeId.lt ⟨0, 1, 0, 0, 0⟩ ⟨1, 0, 0, 0, 0⟩ = true ∧
    NodeId.toVal ⟨1, 0, 0, 0, 0⟩ < NodeId.toVal ⟨0, 1, 0, 0, 0⟩ := by
  decide

/-- Claim C4: for wellformed ids, midpoint is exactly the floor of the
average of the two 160-bit values; consequently it lies between the two
values, and the midpoint of an id with itself is that id. -/
theorem midpoint_is_floor_average {a b : NodeId} (ha : a.Wf) (hb : b.Wf) :
    (a.midpoint b).toVal = (a.toVal + b.toVal) / 2 ∧
    min a.toVal b.toVal ≤ (a.midpoint b).toVal ∧
    (a.midpoint b).toVal ≤ max a.toVal b.toVal ∧
    a.midpoint a = a := by
  obtain ⟨h1, hwf⟩ := NodeId.midpoint_toVal ha hb
  obtain ⟨h2, hwf2⟩ := NodeId.midpoint_toVal ha ha
  refine ⟨h1, by omega, by omega, NodeId.toVal_inj hwf2 ha (by omega)⟩

/-- Claim C4 (witness): the floor-average property evaluated at the ids
1 and 8. -/
theorem midpoint_is_floor_average_witness :
    NodeId.Wf ⟨1, 0, 0, 0, 0⟩ ∧ NodeId.Wf ⟨8, 0, 0, 0, 0⟩ ∧
    ((⟨1, 0, 0, 0, 0⟩ : NodeId).midpoint ⟨8, 0, 0, 0, 0⟩).toVal
      = (NodeId.toVal ⟨1, 0, 0, 0, 0⟩ + NodeId.toVal ⟨8, 0, 0, 0, 0⟩) / 2 ∧
    min (NodeId.toVal ⟨1, 0, 0, 0, 0⟩) (NodeId.toVal ⟨8, 0, 0, 0, 0⟩)
      ≤ ((⟨1, 0, 0, 0, 0⟩ : NodeId).midpoint ⟨8, 0, 0, 0, 0⟩).toVal ∧
    ((⟨1, 0, 0, 0, 0⟩ : NodeId).midpoint ⟨8, 0, 0, 0, 0⟩).toVal
      ≤ max (NodeId.toVal ⟨1, 0, 0, 0, 0⟩) (NodeId.toVal ⟨8, 0, 0, 0, 0⟩) ∧
    (⟨1, 0, 0, 0, 0⟩ : NodeId).midpoint ⟨1, 0, 0, 0, 0⟩ = ⟨1, 0, 0, 0, 0⟩ :=
  ⟨by decide, by decide, midpoint_is_floor_average (by decide) (by decide)⟩

/-- Claim C5 (code_bug evaluation): in a routing table whose two buckets
tile the id space, the id equal to the low bucket's inclusive high bound
is numerically contained in bucket 0, yet get_bucket_for returns 1,
because its search uses a strict comparison against the high bound. -/
theorem get_bucket_for_misses_inclusive_high_bound :
    tableC5.get_bucket_for probeC5 = 1 ∧
    tiling tableC5.buckets = true ∧
    NodeId.toVal bucketLowC5.range.1 ≤ NodeId.toVal probeC5.id ∧
    NodeId.toVal probeC5.id ≤ NodeId.toVal bucketLowC5.range.2 ∧
    NodeId.toVal probeC5.id < NodeId.toVal bucketHighC5.range.1 := by
  decide

/-- Claim C6 (code_bug evaluation): splitting the bucket over 0..2^32
holding the contact with id 2^32 puts that contact into the low child
whose range ends at the midpoint 2^31, although the id numerically
belongs to the high child; the redistribution compares ids with the
lexicographic derived order instead of numerically. -/
theorem split_misplaces_contact_against_numeric_ranges :
    (KBucket.split parentC6).1.nodes
      = [(⟨0, 1, 0, 0, 0⟩, ⟨0, 0, ⟨0, 1, 0, 0, 0⟩⟩)] ∧
    (KBucket.split parentC6).2.nodes = [] ∧
    (KBucket.split parentC6).1.range = (zeroId, ⟨0x80000000, 0, 0, 0, 0⟩) ∧
    (KBucket.split parentC6).2.range
      = (⟨0x80000001, 0, 0, 0, 0⟩, ⟨0, 1, 0, 0, 0⟩) ∧
    NodeId.toVal (KBucket.split parentC6).1.range.2 < NodeId.toVal ⟨0, 1, 0, 0, 0⟩ ∧
    NodeId.toVal (KBucket.split parentC6).2.range.1 ≤ NodeId.toVal ⟨0, 1, 0, 0, 0⟩ ∧
    NodeId.toVal ⟨0, 1, 0, 0, 0⟩ ≤ NodeId.toVal (KBucket.split parentC6).2.range.2 := by
  decide

/-- Claim C7: RoutingTable::add preserves the tiling invariant: when the
bucket list is sorted, starts at zero, is chained by successor and ends
at the maximum id, then add returns normally and the resulting table
satisfies the same invariant. -/
theorem add_preserves_tiling (rt : RoutingTable) (node : Node)
    (h : tiling rt.buckets = true) : addKeepsTiling rt node = true := by
  have hlen : 0 < rt.buckets.length := by
    rcases hb : rt.buckets with _ | ⟨x, xs⟩
    · rw [hb] at h; simp [tiling] at h
    · simp [hb]
  unfold addKeepsTiling
  rw [show RoutingTable.add rt node = some rt from add_eq_some rt node hlen]
  exact h

/-- Claim C7 (witness): the invariant preservation evaluated at a
one-bucket table covering the whole id space. -/
theorem add_preserves_tiling_witness :
    tiling tableW.buckets = true ∧ addKeepsTiling tableW nodeW = true :=
  ⟨by decide, add_preserves_tiling tableW nodeW (by decide)⟩

/-- Claim C8: for a wellformed id, plus_one computes the successor
modulo 2^160: the maximum id wraps to zero and every other id becomes
strictly larger. -/
theorem plus_one_is_successor_with_wraparound {n : NodeId} (h : n.Wf) :
    n.plus_one.toVal = (n.toVal + 1) % 2 ^ 160 ∧
    (n.toVal = 2 ^ 160 - 1 ∧ n.plus_one.toVal = 0 ∨
     n.toVal < 2 ^ 160 - 1 ∧ n.toVal < n.plus_one.toVal) := by
  obtain ⟨h1, hwf⟩ := NodeId.plus_one_toVal h
  have hlt := NodeId.toVal_lt h
  exact ⟨h1, by omega⟩

/-- Claim C8 (witness): the successor property evaluated at the id 5. -/
theorem plus_one_is_successor_with_wraparound_witness :
    NodeId.Wf ⟨5, 0, 0, 0, 0⟩ ∧
    ((⟨5, 0, 0, 0, 0⟩ : NodeId).plus_one.toVal
        = (NodeId.toVal ⟨5, 0, 0, 0, 0⟩ + 1) % 2 ^ 160 ∧
      (NodeId.toVal ⟨5, 0, 0, 0, 0⟩ = 2 ^ 160 - 1 ∧
          (⟨5, 0, 0, 0, 0⟩ : NodeId).plus_one.toVal = 0 ∨
        NodeId.toVal ⟨5, 0, 0, 0, 0⟩ < 2 ^ 160 - 1 ∧
          NodeId.toVal ⟨5, 0, 0, 0, 0⟩ < (⟨5, 0, 0, 0, 0⟩ : NodeId).plus_one.toVal)) :=
  ⟨by decide, plus_one_is_successor_with_wraparound (by decide)⟩

/-- Claim C9: the distance of an id to itself is zero, distance is
symmetric, and for wellformed ids the distance is zero exactly when the
ids are equal. -/
theorem distance_metric_properties {a b : NodeId} (ha : a.Wf) (hb : b.Wf) :
    NodeId.distance a a = 0 ∧
    NodeId.distance a b = NodeId.distance b a ∧
    (NodeId.distance a b = 0 ↔ a = b) :=
  ⟨NodeId.distance_self a, NodeId.distance_comm a b, NodeId.distance_eq_zero_iff ha hb⟩

/-- Claim C9 (witness): the metric properties evaluated at the ids 1
and 3. -/
theorem distance_metric_properties_witness :
    NodeId.Wf ⟨1, 0, 0, 0, 0⟩ ∧ NodeId.Wf ⟨3, 0, 0, 0, 0⟩ ∧
    (NodeId.distance ⟨1, 0, 0, 0, 0⟩ ⟨1, 0, 0, 0, 0⟩ = 0 ∧
      NodeId.distance ⟨1, 0, 0, 0, 0⟩ ⟨3, 0, 0, 0, 0⟩
        = NodeId.distance ⟨3, 0, 0, 0, 0⟩ ⟨1, 0, 0, 0, 0⟩ ∧
      (NodeId.distance ⟨1, 0, 0, 0, 0⟩ ⟨3, 0, 0, 0, 0⟩ = 0
        ↔ (⟨1, 0, 0, 0, 0⟩ : NodeId) = ⟨3, 0, 0, 0, 0⟩)) :=
  ⟨by decide, by decide, distance_metric_properties (by decide) (by decide)⟩

/-- Claim C10 (counterexample): the claim as stated quantifies over
every routing table state, but on the constructible table whose bucket
list is empty RoutingTable::add does not return with the table
unchanged: get_bucket_for falls back to index 0 and the indexing of
self.buckets[0] panics, modelled as none. -/
theorem routing_table_add_panics_on_empty_table :
    RoutingTable.add ⟨⟨0, 0, zeroId⟩, []⟩ nodeW = none := by
  decide

/-- Claim C10 (amended): on every routing table whose bucket list is
nonempty, RoutingTable::add returns the table completely unchanged,
because the bucket-level add unconditionally reports success without
storing the node. -/
theorem routing_table_add_is_identity (rt : RoutingTable) (node : Node)
    (h : 0 < rt.buckets.length) : RoutingTable.add rt node = some rt :=
  add_eq_some rt node h

/-- Claim C10 (witness): the add-is-identity property evaluated at a
concrete one-bucket table. -/
theorem routing_table_add_is_identity_witness :
    0 < tableW.buckets.length ∧ RoutingTable.add tableW nodeW = some tableW :=
  ⟨by decide, routing_table_add_is_identity tableW nodeW (by decide)⟩

end Kademlia

